import Mathlib

/-!
Verification of the caption-management core of the video caption editor
(`src/App.js`).  The component state (`captions`, `currentCaption`,
`editingIndex`) and the handler functions `addOrUpdateCaption`,
`handleEditCaption`, `handleDeleteCaption`, the `videoURL` reset effect,
`generateVTT` and `formatTime` are embedded as executable Lean functions.

JavaScript numbers produced by `parseFloat` on the draft's start/end strings
are modelled by `Option JsNum`: `none` stands for `NaN`, and `some x` for the
decimal fraction `x.n / 10 ^ x.k`.  The representation is kept unnormalised so
every operation is kernel-computable; `JsNum.toRat` interprets it in `ℚ`.
All JS comparison operators return `false` when either side is `NaN`, which the
`jsLt`/`jsLe`/`jsGt`/`jsGe` wrappers reproduce.  Binary-float rounding is not
modelled (all numerals in play are small decimal fractions), and the
`Infinity` and hexadecimal numeral forms accepted by the JS parsers are left
out as they are unreachable from the numeric input fields.
-/

/-- A JavaScript number obtained from a decimal numeral: the rational
`n / 10 ^ k`, kept unnormalised so that comparisons compute by integer
cross-multiplication. -/
structure JsNum where
  n : Int
  k : Nat
deriving DecidableEq

/-- Powers of ten as integers, by structural recursion (kernel-computable). -/
def tenPow : Nat → Int
  | 0 => 1
  | j + 1 => 10 * tenPow j

/-- Interpretation of a `JsNum` as a rational number. -/
def JsNum.toRat (x : JsNum) : ℚ := (x.n : ℚ) / 10 ^ x.k

/-- Strict less-than on `JsNum` via cross-multiplication. -/
def JsNum.ltB (a b : JsNum) : Bool := decide (a.n * tenPow b.k < b.n * tenPow a.k)

/-- Non-strict less-than on `JsNum` via cross-multiplication. -/
def JsNum.leB (a b : JsNum) : Bool := decide (a.n * tenPow b.k ≤ b.n * tenPow a.k)

/-- JS `<`: false when either operand is `NaN`. -/
def jsLt : Option JsNum → Option JsNum → Bool
  | some a, some b => a.ltB b
  | _, _ => false

/-- JS `<=`: false when either operand is `NaN`. -/
def jsLe : Option JsNum → Option JsNum → Bool
  | some a, some b => a.leB b
  | _, _ => false

/-- JS `>`. -/
def jsGt (a b : Option JsNum) : Bool := jsLt b a

/-- JS `>=`. -/
def jsGe (a b : Option JsNum) : Bool := jsLe b a

/-- Whitespace skipped by the JS numeric parsers. -/
def isWhitespace (c : Char) : Bool := c = ' ' || c = '\t' || c = '\n' || c = '\r'

/-- Splits a leading run of decimal digits off a character list, returning
their values and the remainder. -/
def takeDigits : List Char → List Nat × List Char
  | [] => ([], [])
  | c :: rest =>
    if c.isDigit then
      match takeDigits rest with
      | (ds, r) => ((c.toNat - 48) :: ds, r)
    else ([], c :: rest)

/-- Value of a digit string read in base ten. -/
def digitsVal (ds : List Nat) : Nat := ds.foldl (fun a d => 10 * a + d) 0

/-- Parses the mantissa `Digits [. Digits]` of a JS decimal literal: returns
the combined digit value, the number of fraction digits, and the remainder.
Fails (`NaN`) when no digit is present. -/
def parseMantissa (cs : List Char) : Option (Nat × Nat × List Char) :=
  match takeDigits cs with
  | (ints, r1) =>
    match r1 with
    | '.' :: r2 =>
      match takeDigits r2 with
      | (fracs, r3) =>
        if ints.isEmpty && fracs.isEmpty then none
        else some (digitsVal (ints ++ fracs), fracs.length, r3)
    | _ => if ints.isEmpty then none else some (digitsVal ints, 0, r1)

/-- Reads an optional exponent marker for `parseFloat`: a malformed or missing
exponent contributes `0` (the trailing garbage is ignored). -/
def parseExpLoose : List Char → Int
  | [] => 0
  | c :: rest =>
    if c = 'e' || c = 'E' then
      match rest with
      | '-' :: r =>
        (match takeDigits r with
         | (ds, _) => if ds.isEmpty then 0 else -(digitsVal ds : Int))
      | '+' :: r =>
        (match takeDigits r with
         | (ds, _) => if ds.isEmpty then 0 else (digitsVal ds : Int))
      | r =>
        (match takeDigits r with
         | (ds, _) => if ds.isEmpty then 0 else (digitsVal ds : Int))
    else 0

/-- Assembles mantissa, fraction length, exponent and sign into a `JsNum`. -/
def applyExp (mant fracLen : Nat) (e : Int) (neg : Bool) : JsNum :=
  let n0 : Int := if neg then -(mant : Int) else (mant : Int)
  if 0 ≤ e then ⟨n0 * tenPow e.toNat, fracLen⟩ else ⟨n0, fracLen + (-e).toNat⟩

/-- Unsigned part of `parseFloat`. -/
def parseFloatCore (cs : List Char) (neg : Bool) : Option JsNum :=
  match parseMantissa cs with
  | none => none
  | some (m, fl, rest) => some (applyExp m fl (parseExpLoose rest) neg)

/-- Model of JS `parseFloat`: skips leading whitespace, reads an optional
sign and the longest decimal-literal prefix, ignores any trailing
characters; `none` is `NaN`. -/
def parseFloat (s : String) : Option JsNum :=
  match s.data.dropWhile isWhitespace with
  | '-' :: cs => parseFloatCore cs true
  | '+' :: cs => parseFloatCore cs false
  | cs => parseFloatCore cs false

/-- Reads the exponent for the full-string numeric coercion: the whole
remainder must be a well-formed exponent, or empty. -/
def parseExpFull : List Char → Option Int
  | [] => some 0
  | c :: rest =>
    if c = 'e' || c = 'E' then
      match rest with
      | '-' :: r =>
        (match takeDigits r with
         | (ds, rr) => if ds.isEmpty || !rr.isEmpty then none
                       else some (-(digitsVal ds : Int)))
      | '+' :: r =>
        (match takeDigits r with
         | (ds, rr) => if ds.isEmpty || !rr.isEmpty then none
                       else some (digitsVal ds : Int))
      | r =>
        (match takeDigits r with
         | (ds, rr) => if ds.isEmpty || !rr.isEmpty then none
                       else some (digitsVal ds : Int))
    else none

/-- Unsigned part of the `ToNumber` coercion. -/
def jsToNumberCore (cs : List Char) (neg : Bool) : Option JsNum :=
  match parseMantissa cs with
  | none => none
  | some (m, fl, rest) =>
    match parseExpFull rest with
    | none => none
    | some e => some (applyExp m fl e neg)

/-- Model of the JS `ToNumber` coercion applied to a string (triggered by
`seconds * 1000` in `formatTime`): the trimmed string must be empty (value
`0`) or a complete signed decimal literal; anything else is `NaN`. -/
def jsToNumber (s : String) : Option JsNum :=
  match ((s.data.dropWhile isWhitespace).reverse.dropWhile isWhitespace).reverse with
  | [] => some ⟨0, 0⟩
  | '-' :: rest => jsToNumberCore rest true
  | '+' :: rest => jsToNumberCore rest false
  | cs => jsToNumberCore cs false

/-- Truncation toward zero of a `JsNum` (JS `ToInteger`, as performed by the
`Date` constructor on its millisecond argument). -/
def JsNum.truncZ (x : JsNum) : Int :=
  if x.n < 0 then -((-x.n) / tenPow x.k) else x.n / tenPow x.k

/-- Model of `String.prototype.padStart(w, "0")`. -/
def padZeros (w : Nat) (s : String) : String :=
  String.mk (List.replicate (w - s.length) '0') ++ s

/-- Numeric core of `formatTime` (source lines 141-148): milliseconds are the
truncated value of `seconds * 1000`, and the `getUTCHours`, `getUTCMinutes`,
`getUTCSeconds`, `getUTCMilliseconds` fields are floor-division/Euclidean-mod
extractions from it.  Note `getUTCHours` is the hour of day, i.e. the total
hour count reduced modulo 24. -/
def formatMs (t : Int) : String :=
  padZeros 2 (toString (t / 3600000 % 24)) ++ ":" ++
    padZeros 2 (toString (t / 60000 % 60)) ++ ":" ++
    padZeros 2 (toString (t / 1000 % 60)) ++ "." ++
    padZeros 3 (toString (t % 1000))

/-- `formatTime` on an actual number: truncate `seconds * 1000` and format. -/
def formatTimeNum (x : JsNum) : String := formatMs (JsNum.truncZ ⟨x.n * 1000, x.k⟩)

/-- `formatTime` as called from `generateVTT`: the argument is the stored
string, coerced to a number by `seconds * 1000`.  A `NaN` input makes every
`getUTC*` call return `NaN`, producing the string below. -/
def formatTime (seconds : String) : String :=
  match jsToNumber seconds with
  | none => "NaN:NaN:NaN.NaN"
  | some x => formatTimeNum x

/-- The number standing one day (86400 seconds) after `x`, in the same
decimal scale. -/
def plusOneDay (x : JsNum) : JsNum := ⟨x.n + 86400 * tenPow x.k, x.k⟩

/-- A caption record as stored in the `captions` state: the three form
fields, kept as raw strings (the source never converts them on commit). -/
structure Caption where
  text : String
  start : String
  «end» : String
deriving DecidableEq

/-- One position of the `captions` array.  JS arrays are sparse: an
out-of-bounds assignment `updatedCaptions[editingIndex] = ...` creates empty
slots (`hole`, skipped by `some`/`filter`/`forEach` callbacks), and spreading
an array with holes (`[...captions]`) turns them into genuine `undefined`
elements (`undef`, visited by callbacks, whose property access throws). -/
inductive Slot where
  | hole
  | undef
  | cap (c : Caption)
deriving DecidableEq

/-- Outcome of one `addOrUpdateCaption` call, i.e. which toast fires. -/
inductive AddResult where
  | missingField
  | invalidRange
  | overlap
  | added
  | updated
deriving DecidableEq

/-- The toast text the UI layer shows for each outcome (source lines 55, 64,
81-83, 93, 97). -/
def toastMessage : AddResult → String
  | .missingField => "Please fill all fields."
  | .invalidRange => "Start time must be less than end time."
  | .overlap => "The specified time range overlaps with an existing caption."
  | .added => "Caption added successfully!"
  | .updated => "Caption updated successfully!"

/-- The component state relevant to the caption core: the `captions` array,
the `currentCaption` draft and the `editingIndex` edit cursor. -/
structure AppState where
  captions : List Slot
  currentCaption : Caption
  editingIndex : Option Nat
deriving DecidableEq

/-- The initial / cleared draft value. -/
def emptyDraft : Caption := ⟨"", "", ""⟩

/-- Initial component state. -/
def initState : AppState := ⟨[], emptyDraft, none⟩

/-- The three-disjunct containment test of source lines 72-77, applied to the
draft's parsed times `s`,`e` and one existing caption's parsed times
`cs`,`ce`. -/
def overlapTest (s e cs ce : Option JsNum) : Bool :=
  (jsGe s cs && jsLt s ce) || (jsGt e cs && jsLe e ce) || (jsLe s cs && jsGe e ce)

/-- The `captions.some(...)` call of source lines 69-78.  `eIdx` is
`editingIndex`; the callback first evaluates `index !== editingIndex`, so a
slot at the editing index is skipped before any property access.  Empty slots
are skipped by `some` itself; a visited `undefined` element throws a
`TypeError` when `caption.start` is read, modelled as `none`. -/
def someOverlap : List Slot → Nat → Option Nat → Option JsNum → Option JsNum → Option Bool
  | [], _, _, _, _ => some false
  | sl :: rest, i, eIdx, s, e =>
    if eIdx = some i then someOverlap rest (i + 1) eIdx s e
    else
      match sl with
      | .hole => someOverlap rest (i + 1) eIdx s e
      | .undef => none
      | .cap c =>
        if overlapTest s e (parseFloat c.start) (parseFloat c.«end») then some true
        else someOverlap rest (i + 1) eIdx s e

/-- Effect of the array spread `[...captions]`: empty slots become real
`undefined` elements; everything else is copied unchanged. -/
def densifySlot : Slot → Slot
  | .hole => .undef
  | sl => sl

/-- Spread of the whole array. -/
def densify (l : List Slot) : List Slot := l.map densifySlot

/-- JS array assignment `l[i] = v`: in-place update when `i` is in range,
otherwise the array grows, padding the gap with empty slots. -/
def setSlot (l : List Slot) (i : Nat) (v : Slot) : List Slot :=
  if i < l.length then l.set i v
  else l ++ List.replicate (i - l.length) .hole ++ [v]

/-- The `captions.filter((_, idx) => idx !== index)` of source line 109:
`filter` skips empty slots entirely (they vanish from the result) and keeps
every other slot whose original index differs from the target. -/
def deleteFilter : List Slot → Nat → Nat → List Slot
  | [], _, _ => []
  | sl :: rest, i, tgt =>
    match sl with
    | .hole => deleteFilter rest (i + 1) tgt
    | _ =>
      if i = tgt then deleteFilter rest (i + 1) tgt
      else sl :: deleteFilter rest (i + 1) tgt

/-- `addOrUpdateCaption` (source lines 51-101).  Returns `none` when the JS
code would throw (the overlap scan visiting an `undefined` element), else the
outcome together with the state after all `set*` calls:

* empty text/start/end field: `missingField`, state unchanged;
* `parseFloat(start) >= parseFloat(end)` (false for `NaN`): `invalidRange`,
  state unchanged;
* three-disjunct overlap against every caption except the one at
  `editingIndex`: `overlap`, state unchanged;
* otherwise commit: with an edit cursor, `[...captions]` then assignment at
  `editingIndex` (however stale), cursor cleared; without one, append.  The
  draft is cleared in both cases. -/
def addOrUpdateCaption (st : AppState) : Option (AddResult × AppState) :=
  if st.currentCaption.text = "" ∨ st.currentCaption.start = "" ∨ st.currentCaption.«end» = ""
  then some (.missingField, st)
  else if jsGe (parseFloat st.currentCaption.start) (parseFloat st.currentCaption.«end») then
    some (.invalidRange, st)
  else
    match someOverlap st.captions 0 st.editingIndex (parseFloat st.currentCaption.start)
        (parseFloat st.currentCaption.«end») with
    | none => none
    | some true => some (.overlap, st)
    | some false =>
      match st.editingIndex with
      | some idx =>
        some (.updated,
          ⟨setSlot (densify st.captions) idx (.cap st.currentCaption), emptyDraft, none⟩)
      | none =>
        some (.added, ⟨densify st.captions ++ [.cap st.currentCaption], emptyDraft, none⟩)

/-- `handleEditCaption` (source lines 103-106): copies the selected caption
into the draft and sets the edit cursor.  The UI renders an Edit button only
for caption slots (holes render nothing and an `undefined` element crashes the
list rendering), so selecting any other slot is modelled as failure. -/
def handleEditCaption (i : Nat) (st : AppState) : Option AppState :=
  match st.captions.get? i with
  | some (.cap c) => some { st with currentCaption := c, editingIndex := some i }
  | _ => none

/-- `handleDeleteCaption` (source lines 108-112): filters the array by index.
Neither `editingIndex` nor `currentCaption` is touched. -/
def handleDeleteCaption (i : Nat) (st : AppState) : AppState :=
  { st with captions := deleteFilter st.captions 0 i }

/-- The `useEffect` on `[videoURL]` (source lines 114-124): resets `captions`
and `currentCaption`.  It does not touch `editingIndex`. -/
def videoURLResetEffect (st : AppState) : AppState :=
  { st with captions := [], currentCaption := emptyDraft }

/-- One user-level operation on the caption core. -/
inductive Op where
  | setDraft (text start stop : String)
  | addOrUpdate
  | beginEdit (i : Nat)
  | delete (i : Nat)
  | videoChange

/-- Runs one operation; `none` is a thrown exception (not a successful
operation). `setDraft` stands for a sequence of `handleCaptionChange` calls
filling the three controlled fields. -/
def runOp (st : AppState) : Op → Option AppState
  | .setDraft t s e => some { st with currentCaption := ⟨t, s, e⟩ }
  | .addOrUpdate => (addOrUpdateCaption st).map Prod.snd
  | .beginEdit i => handleEditCaption i st
  | .delete i => some (handleDeleteCaption i st)
  | .videoChange => some (videoURLResetEffect st)

/-- Runs a list of operations from a given state, stopping at a throw. -/
def runOpsFrom (st : AppState) : List Op → Option AppState
  | [] => some st
  | op :: rest =>
    match runOp st op with
    | none => none
    | some st' => runOpsFrom st' rest

/-- Runs a list of operations from the initial state. -/
def runOps (ops : List Op) : Option AppState := runOpsFrom initState ops

/-- The canonical half-open interval intersection test of the specification
(`s1 < e2 && s2 < e1`), under JS `NaN` comparison semantics. -/
def jsIntersect (s1 e1 s2 e2 : Option JsNum) : Bool := jsLt s1 e2 && jsLt s2 e1

/-- Canonical intersection of the `[start, end)` intervals of two stored
captions, re-parsing the stored strings exactly as the code does. -/
def capIntersect (a b : Caption) : Bool :=
  jsIntersect (parseFloat a.start) (parseFloat a.«end») (parseFloat b.start) (parseFloat b.«end»)

/-- Every caption that passed validation: non-empty fields, and the parsed
times fail the `startTime >= endTime` check (so if both parse, start < end). -/
def capValidated (c : Caption) : Prop :=
  c.text ≠ "" ∧ c.start ≠ "" ∧ c.«end» ≠ "" ∧
    jsGe (parseFloat c.start) (parseFloat c.«end») = false

/-- Field invariant lifted to slots. -/
def slotOK : Slot → Prop
  | .cap c => capValidated c
  | _ => True

/-- Relation between two slots: whenever both hold captions, the captions'
intervals do not canonically intersect. -/
def slotRel (a b : Slot) : Prop :=
  ∀ ca cb, a = Slot.cap ca → b = Slot.cap cb → capIntersect ca cb = false

/-- Pairwise non-intersection over a whole slot array. -/
def SlotsSeparated (l : List Slot) : Prop := List.Pairwise slotRel l

/-- `generateVTT`'s accumulation loop (source lines 133-137), written with an
explicit index and accumulator. -/
def vttAppend : List Caption → Nat → String → String
  | [], _, acc => acc
  | c :: rest, i, acc =>
    vttAppend rest (i + 1)
      (acc ++ toString (i + 1) ++ "\n" ++ formatTime c.start ++ " --> " ++
        formatTime c.«end» ++ "\n" ++ c.text ++ "\n\n")

/-- The text of the VTT payload built by `generateVTT` (source lines
131-139); the `Blob`/object-URL wrapper around the text is not modelled.  The
claims concern snapshots of genuine captions, so the encoder is stated on
`List Caption`. -/
def generateVTT (caps : List Caption) : String := vttAppend caps 0 "WEBVTT\n\n"

/-- One cue block as the specification describes it: 1-based sequential
index, the formatted time range line, then the caption text. -/
def cueBlock (i : Nat) (c : Caption) : String :=
  toString (i + 1) ++ "\n" ++ formatTime c.start ++ " --> " ++
    formatTime c.«end» ++ "\n" ++ c.text

/-- Concatenation of a list of strings. -/
def strJoin : List String → String
  | [] => ""
  | s :: rest => s ++ strJoin rest

/-- The track encoding as the specification words it: the `WEBVTT` header, a
blank line, then the cue blocks in snapshot order, each followed by one blank
line. -/
def encodeTrack (caps : List Caption) : String :=
  "WEBVTT\n\n" ++ strJoin (caps.enum.map fun p => cueBlock p.1 p.2 ++ "\n\n")

example : parseFloat "1" = some ⟨1, 0⟩ := by decide
example : parseFloat "3661.5" = some ⟨36615, 1⟩ := by decide
example : parseFloat "-5" = some ⟨-5, 0⟩ := by decide
example : parseFloat "abc" = none := by decide
example : parseFloat "3abc" = some ⟨3, 0⟩ := by decide
example : parseFloat "" = none := by decide
example : jsToNumber "" = some ⟨0, 0⟩ := by decide
example : jsToNumber "3abc" = none := by decide
example : jsLt (parseFloat "2") (parseFloat "4") = true := by decide
example : jsGe (parseFloat "abc") (parseFloat "5") = false := by decide
example : formatTimeNum ⟨0, 0⟩ = "00:00:00.000" := by decide
example : formatTimeNum ⟨36615, 1⟩ = "01:01:01.500" := by decide
example : formatTimeNum ⟨86400, 0⟩ = "00:00:00.000" := by decide
example : formatTime "3661.5" = "01:01:01.500" := by decide
example : formatTime "abc" = "NaN:NaN:NaN.NaN" := by decide
example :
    addOrUpdateCaption ⟨[.cap ⟨"Hi", "1", "3"⟩], ⟨"Bye", "2", "4"⟩, none⟩ =
      some (.overlap, ⟨[.cap ⟨"Hi", "1", "3"⟩], ⟨"Bye", "2", "4"⟩, none⟩) := by decide
example :
    addOrUpdateCaption ⟨[.cap ⟨"Hi", "1", "3"⟩], ⟨"Bye", "3", "4"⟩, none⟩ =
      some (.added, ⟨[.cap ⟨"Hi", "1", "3"⟩, .cap ⟨"Bye", "3", "4"⟩], emptyDraft, none⟩) := by
  decide
example :
    runOps [.setDraft "Hi" "1" "3", .addOrUpdate, .beginEdit 0, .delete 0] =
      some ⟨[], ⟨"Hi", "1", "3"⟩, some 0⟩ := by decide
example :
    runOps [.setDraft "x" "abc" "5", .addOrUpdate] =
      some ⟨[.cap ⟨"x", "abc", "5"⟩], emptyDraft, none⟩ := by decide
example :
    runOps [.setDraft "A" "1" "3", .addOrUpdate, .setDraft "B" "5" "7", .addOrUpdate,
      .beginEdit 1, .delete 0, .delete 0, .setDraft "C" "10" "12", .addOrUpdate] =
      some ⟨[.hole, .cap ⟨"C", "10", "12"⟩], emptyDraft, none⟩ := by decide

theorem tenPow_pos (k : Nat) : 0 < tenPow k := by
  induction k with
  | zero => norm_num [tenPow]
  | succ j ih => simp only [tenPow]; omega

theorem tenPow_cast (k : Nat) : ((tenPow k : Int) : ℚ) = 10 ^ k := by
  induction k with
  | zero => norm_num [tenPow]
  | succ j ih =>
    push_cast [tenPow]
    rw [ih, pow_succ]
    ring

theorem JsNum.ltB_iff {a b : JsNum} : a.ltB b = true ↔ a.toRat < b.toRat := by
  unfold JsNum.ltB JsNum.toRat
  rw [decide_eq_true_eq,
    div_lt_div_iff₀ (pow_pos (by norm_num) _) (pow_pos (by norm_num) _),
    ← tenPow_cast, ← tenPow_cast]
  constructor <;> intro h <;> exact_mod_cast h

theorem JsNum.leB_iff {a b : JsNum} : a.leB b = true ↔ a.toRat ≤ b.toRat := by
  unfold JsNum.leB JsNum.toRat
  rw [decide_eq_true_eq,
    div_le_div_iff₀ (pow_pos (by norm_num) _) (pow_pos (by norm_num) _),
    ← tenPow_cast, ← tenPow_cast]
  constructor <;> intro h <;> exact_mod_cast h

/-- The canonical half-open test implies the code's three-disjunct test, with
no hypotheses at all: a commit that passed the code's check can never store a
canonically intersecting pair. -/
theorem jsIntersect_imp_overlapTest {s e cs ce : Option JsNum}
    (h : jsIntersect s e cs ce = true) : overlapTest s e cs ce = true := by
  cases s <;> cases e <;> cases cs <;> cases ce <;>
    simp only [jsIntersect, jsLt, Bool.false_and, Bool.and_false] at h
  any_goals exact Bool.noConfusion h
  rename_i a b c d
  rw [Bool.and_eq_true] at h
  obtain ⟨h1, h2⟩ := h
  rw [JsNum.ltB_iff] at h1 h2
  simp only [overlapTest, jsGe, jsGt, jsLe, jsLt, Bool.or_eq_true, Bool.and_eq_true]
  rcases le_or_lt c.toRat a.toRat with hca | hca
  · exact Or.inl (Or.inl ⟨JsNum.leB_iff.mpr hca, JsNum.ltB_iff.mpr h1⟩)
  · rcases le_or_lt d.toRat b.toRat with hdb | hdb
    · exact Or.inr ⟨JsNum.leB_iff.mpr hca.le, JsNum.leB_iff.mpr hdb⟩
    · exact Or.inl (Or.inr ⟨JsNum.ltB_iff.mpr h2, JsNum.leB_iff.mpr hdb.le⟩)

/-- On a draft whose parsed interval is well-formed (`start < end`, so both
parse) and an existing caption that passed the stored-range check
(`¬(start >= end)`, i.e. both parse with `start < end`, or an endpoint is
`NaN`), the code's three-disjunct test agrees exactly with the canonical
half-open intersection test. -/
theorem overlapTest_eq_jsIntersect {s e cs ce : Option JsNum}
    (hd : jsLt s e = true) (hc : jsGe cs ce = false) :
    overlapTest s e cs ce = jsIntersect s e cs ce := by
  cases s <;> cases e <;> simp only [jsLt] at hd
  any_goals exact Bool.noConfusion hd
  rename_i a b
  cases cs with
  | none =>
    cases ce <;>
      simp [overlapTest, jsIntersect, jsGe, jsGt, jsLe, jsLt]
  | some c =>
    cases ce with
    | none => simp [overlapTest, jsIntersect, jsGe, jsGt, jsLe, jsLt]
    | some d =>
      simp only [jsGe, jsLe] at hc
      rw [Bool.eq_iff_iff]
      constructor
      · intro ho
        rw [JsNum.ltB_iff] at hd
        have hcd : c.toRat < d.toRat := by
          by_contra h'
          push_neg at h'
          rw [JsNum.leB_iff.mpr h'] at hc
          exact Bool.noConfusion hc
        simp only [overlapTest, jsGe, jsGt, jsLe, jsLt, Bool.or_eq_true,
          Bool.and_eq_true] at ho
        simp only [jsIntersect, jsLt, Bool.and_eq_true]
        rcases ho with (⟨ha1, ha2⟩ | ⟨ha1, ha2⟩) | ⟨ha1, ha2⟩
        · rw [JsNum.leB_iff] at ha1
          rw [JsNum.ltB_iff] at ha2
          exact ⟨JsNum.ltB_iff.mpr ha2, JsNum.ltB_iff.mpr (lt_of_le_of_lt ha1 hd)⟩
        · rw [JsNum.ltB_iff] at ha1
          rw [JsNum.leB_iff] at ha2
          exact ⟨JsNum.ltB_iff.mpr (lt_of_lt_of_le hd ha2), JsNum.ltB_iff.mpr ha1⟩
        · rw [JsNum.leB_iff] at ha1 ha2
          exact ⟨JsNum.ltB_iff.mpr (lt_of_le_of_lt ha1 hcd),
            JsNum.ltB_iff.mpr (lt_of_lt_of_le hcd ha2)⟩
      · exact jsIntersect_imp_overlapTest

/-- The canonical intersection test is symmetric in its two intervals. -/
theorem jsIntersect_comm (s1 e1 s2 e2 : Option JsNum) :
    jsIntersect s1 e1 s2 e2 = jsIntersect s2 e2 s1 e1 := by
  simp only [jsIntersect, Bool.and_comm]

/-- Caption-level symmetry of the canonical intersection test. -/
theorem capIntersect_comm (a b : Caption) : capIntersect a b = capIntersect b a := by
  simp only [capIntersect, jsIntersect_comm]

/-- Symmetry of the slot relation, via `capIntersect_comm`. -/
theorem slotRel_symm {a b : Slot} (h : slotRel a b) : slotRel b a := by
  intro ca cb h1 h2
  rw [capIntersect_comm]
  exact h cb ca h2 h1

/-- Holes are unrelated to captions, so `slotRel` holds vacuously on the
left. -/
theorem slotRel_hole_left (b : Slot) : slotRel .hole b := by
  intro ca cb h1
  exact absurd h1 (by simp)

/-- `slotRel` holds vacuously when the right side is a hole. -/
theorem slotRel_hole_right (a : Slot) : slotRel a .hole := by
  intro ca cb h1 h2
  exact absurd h2 (by simp)

/-- If the overlap scan of source lines 69-78 returned `false`, then every
caption slot it did not skip fails the three-disjunct test against the
draft.  The scan over `l` starts at array index `i`; position `k` within `l`
is array index `i + k`. -/
theorem someOverlap_eq_false {l : List Slot} :
    ∀ {i : Nat} {eIdx : Option Nat} {s e : Option JsNum},
      someOverlap l i eIdx s e = some false →
      ∀ k c, l.get? k = some (.cap c) → eIdx ≠ some (i + k) →
        overlapTest s e (parseFloat c.start) (parseFloat c.«end») = false := by
  induction l with
  | nil =>
    intro i eIdx s e h k c hk
    simp at hk
  | cons sl rest ih =>
    intro i eIdx s e h k c hk hne
    by_cases he : eIdx = some i
    · simp only [someOverlap] at h
      rw [if_pos he] at h
      cases k with
      | zero => exact absurd he (by simpa using hne)
      | succ k' =>
        refine ih h k' c (by simpa using hk) ?_
        intro hcontra
        apply hne
        rw [hcontra]
        congr 1
        omega
    · simp only [someOverlap] at h
      rw [if_neg he] at h
      cases sl with
      | hole =>
        cases k with
        | zero => simp at hk
        | succ k' =>
          refine ih h k' c (by simpa using hk) ?_
          intro hcontra
          apply hne
          rw [hcontra]
          congr 1
          omega
      | undef => exact absurd h (by simp)
      | cap c0 =>
        have h' : (if overlapTest s e (parseFloat c0.start) (parseFloat c0.«end») = true
            then some true else someOverlap rest (i + 1) eIdx s e) = some false := h
        by_cases ht : overlapTest s e (parseFloat c0.start) (parseFloat c0.«end») = true
        · rw [if_pos ht] at h'
          exact absurd h' (by simp)
        · rw [if_neg ht] at h'
          cases k with
          | zero =>
            have hcc : c0 = c := by simpa using hk
            rw [← hcc]
            exact Bool.not_eq_true _ ▸ ht
          | succ k' =>
            refine ih h' k' c (by simpa using hk) ?_
            intro hcontra
            apply hne
            rw [hcontra]
            congr 1
            omega

/-- Membership form of `someOverlap_eq_false` for the append path, where no
index is skipped (`editingIndex` is `null`). -/
theorem someOverlap_eq_false_mem {l : List Slot} {s e : Option JsNum}
    (h : someOverlap l 0 none s e = some false) :
    ∀ c, Slot.cap c ∈ l →
      overlapTest s e (parseFloat c.start) (parseFloat c.«end») = false := by
  intro c hc
  obtain ⟨k, hk⟩ := List.mem_iff_get?.mp hc
  exact someOverlap_eq_false h k c hk (by simp)

/-- `deleteFilter` yields a sublist of the original slot array. -/
theorem deleteFilter_sublist (l : List Slot) : ∀ i tgt : Nat,
    (deleteFilter l i tgt).Sublist l := by
  induction l with
  | nil => intro i tgt; simp [deleteFilter]
  | cons sl rest ih =>
    intro i tgt
    cases sl with
    | hole => exact (ih (i + 1) tgt).cons _
    | undef =>
      simp only [deleteFilter]
      by_cases hit : i = tgt
      · rw [if_pos hit]
        exact (ih (i + 1) tgt).cons _
      · rw [if_neg hit]
        exact (ih (i + 1) tgt).cons₂ _
    | cap c =>
      simp only [deleteFilter]
      by_cases hit : i = tgt
      · rw [if_pos hit]
        exact (ih (i + 1) tgt).cons _
      · rw [if_neg hit]
        exact (ih (i + 1) tgt).cons₂ _

/-- The spread `[...l]` maps a slot to a caption slot exactly when the
original slot was that caption. -/
theorem densifySlot_eq_cap {sl : Slot} {c : Caption} :
    densifySlot sl = .cap c ↔ sl = .cap c := by
  cases sl <;> simp [densifySlot]

/-- Positional captions are untouched by the spread. -/
theorem densify_get?_cap {l : List Slot} {j : Nat} {c : Caption} :
    (densify l).get? j = some (.cap c) ↔ l.get? j = some (.cap c) := by
  rw [densify, List.get?_map]
  cases h : l.get? j with
  | none => simp
  | some sl => simp [densifySlot_eq_cap]

/-- Caption membership is untouched by the spread. -/
theorem cap_mem_densify {l : List Slot} {c : Caption} :
    Slot.cap c ∈ densify l ↔ Slot.cap c ∈ l := by
  simp only [densify, List.mem_map]
  constructor
  · rintro ⟨a, ha, hac⟩
    rwa [densifySlot_eq_cap.mp hac] at ha
  · intro hc
    exact ⟨.cap c, hc, rfl⟩

/-- `List.Pairwise` through `get?` positions, for an arbitrary relation. -/
theorem pairwise_get?_iff {α : Type} {R : α → α → Prop} {l : List α} :
    List.Pairwise R l ↔
      ∀ i j a b, i < j → l.get? i = some a → l.get? j = some b → R a b := by
  induction l with
  | nil => simp
  | cons x rest ih =>
    constructor
    · intro h i j a b hij hi hj
      rcases h with - | ⟨hx, hrest⟩
      cases i with
      | zero =>
        cases j with
        | zero => omega
        | succ j' =>
          have hax : x = a := by simpa using hi
          rw [← hax]
          exact hx b (List.get?_mem (by simpa using hj))
      | succ i' =>
        cases j with
        | zero => omega
        | succ j' =>
          exact ih.mp hrest i' j' a b (by omega) (by simpa using hi) (by simpa using hj)
    · intro h
      constructor
      · intro b hb
        obtain ⟨j, hj⟩ := List.mem_iff_get?.mp hb
        exact h 0 (j + 1) x b (by omega) rfl (by simpa using hj)
      · refine ih.mpr ?_
        intro i j a b hij hi hj
        exact h (i + 1) (j + 1) a b (by omega) (by simpa using hi) (by simpa using hj)

/-- Updating position `k` preserves pairwise separation provided the new slot
is related to every slot at another position. -/
theorem slotsSeparated_set {l : List Slot} {k : Nat} {v : Slot}
    (hl : List.Pairwise slotRel l)
    (hv : ∀ j b, j ≠ k → l.get? j = some b → slotRel b v) :
    List.Pairwise slotRel (l.set k v) := by
  rw [pairwise_get?_iff] at hl ⊢
  intro i j a b hij hi hj
  by_cases hik : i = k
  · subst hik
    by_cases hjk : j = i
    · omega
    · rw [List.get?_set_ne _ _ (fun h => hjk h.symm)] at hj
      rw [List.get?_set_eq] at hi
      cases hli : l.get? i with
      | none => rw [hli] at hi; exact absurd hi (by simp)
      | some w =>
        rw [hli] at hi
        have hav : a = v := by simpa using hi.symm
        rw [hav]
        exact slotRel_symm (hv j b hjk hj)
  · by_cases hjk : j = k
    · subst hjk
      rw [List.get?_set_ne _ _ (Ne.symm hik)] at hi
      rw [List.get?_set_eq] at hj
      cases hlj : l.get? j with
      | none => rw [hlj] at hj; exact absurd hj (by simp)
      | some w =>
        rw [hlj] at hj
        have hbv : b = v := by simpa using hj.symm
        rw [hbv]
        exact hv i a hik hi
    · rw [List.get?_set_ne _ _ (Ne.symm hik)] at hi
      rw [List.get?_set_ne _ _ (Ne.symm hjk)] at hj
      exact hl i j a b hij hi hj

/-- Growing the array with a hole padding and the new slot at the end
preserves pairwise separation provided the new slot is related to every
existing slot. -/
theorem slotsSeparated_append_pad {l : List Slot} {m : Nat} {v : Slot}
    (hl : List.Pairwise slotRel l) (hv : ∀ b ∈ l, slotRel b v) :
    List.Pairwise slotRel (l ++ List.replicate m .hole ++ [v]) := by
  rw [List.pairwise_append]
  refine ⟨?_, ?_, ?_⟩
  · rw [List.pairwise_append]
    refine ⟨hl, ?_, ?_⟩
    · exact List.pairwise_replicate.mpr (Or.inr (slotRel_hole_left _))
    · intro a ha b hb
      rw [List.eq_of_mem_replicate hb]
      exact slotRel_hole_right a
  · simp
  · intro a ha b hb
    rw [List.mem_singleton.mp hb]
    rcases List.mem_append.mp ha with ha' | ha'
    · exact hv a ha'
    · rw [List.eq_of_mem_replicate ha']
      exact slotRel_hole_left v

/-- The spread preserves the slot field invariant. -/
theorem slotOK_densify {l : List Slot} (h : ∀ sl ∈ l, slotOK sl) :
    ∀ sl ∈ densify l, slotOK sl := by
  intro sl hsl
  obtain ⟨a, ha, rfl⟩ := List.mem_map.mp hsl
  cases a with
  | hole => trivial
  | undef => trivial
  | cap c => exact h _ ha

/-- The spread preserves pairwise separation. -/
theorem slotsSeparated_densify {l : List Slot} (h : List.Pairwise slotRel l) :
    List.Pairwise slotRel (densify l) := by
  refine List.Pairwise.map densifySlot ?_ h
  intro a b hab ca cb hca hcb
  exact hab ca cb (densifySlot_eq_cap.mp hca) (densifySlot_eq_cap.mp hcb)

/-- A successful `addOrUpdateCaption` call preserves both store invariants:
pairwise canonical non-intersection of the stored captions, and the field
invariant of every stored caption. -/
theorem addOrUpdate_preserves {st : AppState} {r : AddResult} {st' : AppState}
    (h : addOrUpdateCaption st = some (r, st'))
    (h1 : List.Pairwise slotRel st.captions)
    (h2 : ∀ sl ∈ st.captions, slotOK sl) :
    List.Pairwise slotRel st'.captions ∧ ∀ sl ∈ st'.captions, slotOK sl := by
  unfold addOrUpdateCaption at h
  split at h
  · obtain ⟨-, rfl⟩ : _ ∧ st = st' := by simpa using h
    exact ⟨h1, h2⟩
  · rename_i hfields
    split at h
    · obtain ⟨-, rfl⟩ : _ ∧ st = st' := by simpa using h
      exact ⟨h1, h2⟩
    · rename_i hrange
      split at h
      · exact absurd h (by simp)
      · obtain ⟨-, rfl⟩ : _ ∧ st = st' := by simpa using h
        exact ⟨h1, h2⟩
      · rename_i hso
        have hvalid : slotOK (.cap st.currentCaption) := by
          refine ⟨?_, ?_, ?_, ?_⟩
          · exact fun hx => hfields (Or.inl hx)
          · exact fun hx => hfields (Or.inr (Or.inl hx))
          · exact fun hx => hfields (Or.inr (Or.inr hx))
          · exact Bool.eq_false_iff.mpr hrange
        split at h
        · -- update in place at the (possibly stale) edit cursor
          rename_i idx heidx
          obtain ⟨-, rfl⟩ : _ ∧
              (⟨setSlot (densify st.captions) idx (.cap st.currentCaption),
                emptyDraft, none⟩ : AppState) = st' := by simpa using h
          rw [heidx] at hso
          constructor
          · show List.Pairwise slotRel
              (setSlot (densify st.captions) idx (.cap st.currentCaption))
            rw [setSlot]
            split
            · refine slotsSeparated_set (slotsSeparated_densify h1) ?_
              intro j b hjne hbj cb cv hcb hcv
              have hj' : st.captions.get? j = some (.cap cb) :=
                densify_get?_cap.mp (hcb ▸ hbj)
              have hovt := someOverlap_eq_false hso j cb hj'
                (by simpa using fun hx => hjne hx.symm)
              have hcvd : cv = st.currentCaption := by
                have := hcv.symm
                simpa using this
              rw [hcvd, capIntersect, jsIntersect_comm]
              have hne : jsIntersect (parseFloat st.currentCaption.start)
                  (parseFloat st.currentCaption.«end») (parseFloat cb.start)
                  (parseFloat cb.«end») ≠ true := by
                intro hx
                have h3 := jsIntersect_imp_overlapTest hx
                rw [hovt] at h3
                exact Bool.noConfusion h3
              exact Bool.eq_false_iff.mpr hne
            · rename_i hge
              refine slotsSeparated_append_pad (slotsSeparated_densify h1) ?_
              intro b hb cb cv hcb hcv
              have hbin : Slot.cap cb ∈ st.captions := cap_mem_densify.mp (hcb ▸ hb)
              obtain ⟨j, hj⟩ := List.mem_iff_get?.mp hbin
              have hjlt : j < st.captions.length := by
                obtain ⟨hlt, -⟩ := List.get?_eq_some.mp hj
                exact hlt
              have hidxge : st.captions.length ≤ idx := by
                have := hge
                rw [densify, List.length_map] at this
                omega
              have hovt := someOverlap_eq_false hso j cb hj
                (by simp; omega)
              have hcvd : cv = st.currentCaption := by
                have := hcv.symm
                simpa using this
              rw [hcvd, capIntersect, jsIntersect_comm]
              have hne : jsIntersect (parseFloat st.currentCaption.start)
                  (parseFloat st.currentCaption.«end») (parseFloat cb.start)
                  (parseFloat cb.«end») ≠ true := by
                intro hx
                have h3 := jsIntersect_imp_overlapTest hx
                rw [hovt] at h3
                exact Bool.noConfusion h3
              exact Bool.eq_false_iff.mpr hne
          · intro sl hsl
            have hsl' : sl ∈ setSlot (densify st.captions) idx (.cap st.currentCaption) := hsl
            rw [setSlot] at hsl'
            split at hsl'
            · rcases List.mem_or_eq_of_mem_set hsl' with hmem | rfl
              · exact slotOK_densify h2 sl hmem
              · exact hvalid
            · rcases List.mem_append.mp hsl' with hmem | hmem
              · rcases List.mem_append.mp hmem with hmem' | hmem'
                · exact slotOK_densify h2 sl hmem'
                · rw [List.eq_of_mem_replicate hmem']
                  trivial
              · rw [List.mem_singleton.mp hmem]
                exact hvalid
        · -- append a fresh caption
          rename_i heidx
          obtain ⟨-, rfl⟩ : _ ∧
              (⟨densify st.captions ++ [.cap st.currentCaption],
                emptyDraft, none⟩ : AppState) = st' := by simpa using h
          rw [heidx] at hso
          constructor
          · show List.Pairwise slotRel
              (densify st.captions ++ [.cap st.currentCaption])
            rw [List.pairwise_append]
            refine ⟨slotsSeparated_densify h1, List.pairwise_singleton _ _, ?_⟩
            intro a ha b hb
            rw [List.mem_singleton.mp hb]
            intro ca cb hca hcb
            have hain : Slot.cap ca ∈ st.captions := cap_mem_densify.mp (hca ▸ ha)
            have hovt := someOverlap_eq_false_mem hso ca hain
            have hcbd : cb = st.currentCaption := by
              have := hcb.symm
              simpa using this
            rw [hcbd, capIntersect, jsIntersect_comm]
            have hne : jsIntersect (parseFloat st.currentCaption.start)
                (parseFloat st.currentCaption.«end») (parseFloat ca.start)
                (parseFloat ca.«end») ≠ true := by
              intro hx
              have h3 := jsIntersect_imp_overlapTest hx
              rw [hovt] at h3
              exact Bool.noConfusion h3
            exact Bool.eq_false_iff.mpr hne
          · intro sl hsl
            have hsl' : sl ∈ densify st.captions ++ [.cap st.currentCaption] := hsl
            rcases List.mem_append.mp hsl' with hmem | hmem
            · exact slotOK_densify h2 sl hmem
            · rw [List.mem_singleton.mp hmem]
              exact hvalid

/-- Every successful operation preserves the two store invariants. -/
theorem runOp_preserves {st : AppState} {op : Op} {st' : AppState}
    (h : runOp st op = some st')
    (h1 : List.Pairwise slotRel st.captions)
    (h2 : ∀ sl ∈ st.captions, slotOK sl) :
    List.Pairwise slotRel st'.captions ∧ ∀ sl ∈ st'.captions, slotOK sl := by
  cases op with
  | setDraft t s e =>
    simp only [runOp, Option.some.injEq] at h
    subst h
    exact ⟨h1, h2⟩
  | addOrUpdate =>
    rw [runOp, Option.map_eq_some'] at h
    obtain ⟨⟨r, st''⟩, hx, rfl⟩ := h
    exact addOrUpdate_preserves hx h1 h2
  | beginEdit i =>
    rw [runOp] at h
    unfold handleEditCaption at h
    split at h
    · obtain rfl : _ = st' := by simpa using h
      exact ⟨h1, h2⟩
    · exact absurd h (by simp)
  | delete i =>
    simp only [runOp, Option.some.injEq] at h
    subst h
    have hsub := deleteFilter_sublist st.captions 0 i
    exact ⟨List.Pairwise.sublist hsub h1,
      fun sl hsl => h2 sl (hsub.subset hsl)⟩
  | videoChange =>
    simp only [runOp, Option.some.injEq] at h
    subst h
    exact ⟨by simp [videoURLResetEffect], by simp [videoURLResetEffect]⟩

/-- Invariant preservation along any successful operation sequence. -/
theorem runOpsFrom_preserves : ∀ (ops : List Op) (st st' : AppState),
    runOpsFrom st ops = some st' →
    List.Pairwise slotRel st.captions → (∀ sl ∈ st.captions, slotOK sl) →
    List.Pairwise slotRel st'.captions ∧ ∀ sl ∈ st'.captions, slotOK sl := by
  intro ops
  induction ops with
  | nil =>
    intro st st' h h1 h2
    obtain rfl : st = st' := by simpa [runOpsFrom] using h
    exact ⟨h1, h2⟩
  | cons op rest ih =>
    intro st st' h h1 h2
    rw [runOpsFrom] at h
    cases hop : runOp st op with
    | none => rw [hop] at h; exact absurd h (by simp)
    | some st1 =>
      rw [hop] at h
      obtain ⟨h1', h2'⟩ := runOp_preserves hop h1 h2
      exact ih st1 st' h h1' h2'

/-- Both invariants hold in every store reachable from the initial state. -/
theorem runOps_invariant {ops : List Op} {st : AppState}
    (h : runOps ops = some st) :
    List.Pairwise slotRel st.captions ∧ ∀ sl ∈ st.captions, slotOK sl :=
  runOpsFrom_preserves ops initState st h (by simp [initState]) (by simp [initState])

/-- Shifting the millisecond count by a whole day leaves every field of the
formatted string unchanged: `getUTCHours` reduces modulo 24. -/
theorem formatMs_day (t : Int) : formatMs (t + 86400000) = formatMs t := by
  unfold formatMs
  have e1 : (t + 86400000) / 3600000 % 24 = t / 3600000 % 24 := by omega
  have e2 : (t + 86400000) / 60000 % 60 = t / 60000 % 60 := by omega
  have e3 : (t + 86400000) / 1000 % 60 = t / 1000 % 60 := by omega
  have e4 : (t + 86400000) % 1000 = t % 1000 := by omega
  rw [e1, e2, e3, e4]

/-- Adding a whole day to a non-negative number of seconds adds exactly
86400000 to the truncated millisecond count. -/
theorem truncZ_day_shift (x : JsNum) (hx : 0 ≤ x.n) :
    JsNum.truncZ ⟨x.n * 1000 + 86400000 * tenPow x.k, x.k⟩ =
      JsNum.truncZ ⟨x.n * 1000, x.k⟩ + 86400000 := by
  have hp := tenPow_pos x.k
  have h0 : (0 : Int) ≤ x.n * 1000 := by positivity
  have h1 : (0 : Int) ≤ x.n * 1000 + 86400000 * tenPow x.k := by positivity
  unfold JsNum.truncZ
  simp only
  rw [if_neg (by omega), if_neg (by omega)]
  exact Int.add_mul_ediv_right _ _ (ne_of_gt hp)

/-- `plusOneDay` really is `+ 86400` seconds. -/
theorem plusOneDay_toRat (x : JsNum) : (plusOneDay x).toRat = x.toRat + 86400 := by
  unfold plusOneDay JsNum.toRat
  simp only
  rw [← tenPow_cast]
  have hp : ((tenPow x.k : Int) : ℚ) ≠ 0 := by
    rw [tenPow_cast]
    positivity
  field_simp

/-- For every non-negative input, `formatTimeNum` collapses inputs one day
apart: whole days are silently discarded. -/
theorem formatTimeNum_day_shift (x : JsNum) (hx : 0 ≤ x.n) :
    formatTimeNum (plusOneDay x) = formatTimeNum x := by
  unfold formatTimeNum plusOneDay
  simp only
  rw [show (x.n + 86400 * tenPow x.k) * 1000 =
      x.n * 1000 + 86400000 * tenPow x.k from by ring]
  rw [truncZ_day_shift x hx, formatMs_day]

/-- The accumulation loop of `generateVTT` produces exactly the
specification's cue blocks, joined with a blank line after each. -/
theorem vttAppend_eq (caps : List Caption) : ∀ (i : Nat) (acc : String),
    vttAppend caps i acc =
      acc ++ strJoin ((List.enumFrom i caps).map fun p => cueBlock p.1 p.2 ++ "\n\n") := by
  induction caps with
  | nil =>
    intro i acc
    simp [vttAppend, strJoin]
  | cons c rest ih =>
    intro i acc
    rw [vttAppend, ih, List.enumFrom]
    simp only [List.map_cons, strJoin, cueBlock]
    simp [String.append_assoc]

/-- C1: the code's three-disjunct containment test (source lines 69-78) is
equivalent to the canonical half-open intersection test `s1 < e2 && s2 < e1`
for every draft whose parsed interval satisfies `start < end` and every
existing caption that passed the stored-range check `¬(start >= end)` (which
`claimC6_amended`'s invariant guarantees for all stored captions — for both
tests a `NaN` endpoint yields `false`).  Concretely, against a store holding
`{start:1, end:3}` the draft `{start:2, end:4}` is rejected with `Overlap`
while `{start:3, end:4}` is accepted (touching endpoints allowed). -/
theorem claimC1 :
    (∀ s e cs ce : Option JsNum, jsLt s e = true → jsGe cs ce = false →
      overlapTest s e cs ce = jsIntersect s e cs ce) ∧
    addOrUpdateCaption ⟨[.cap ⟨"Hi", "1", "3"⟩], ⟨"Bye", "2", "4"⟩, none⟩ =
      some (.overlap, ⟨[.cap ⟨"Hi", "1", "3"⟩], ⟨"Bye", "2", "4"⟩, none⟩) ∧
    addOrUpdateCaption ⟨[.cap ⟨"Hi", "1", "3"⟩], ⟨"Bye", "3", "4"⟩, none⟩ =
      some (.added, ⟨[.cap ⟨"Hi", "1", "3"⟩, .cap ⟨"Bye", "3", "4"⟩], emptyDraft, none⟩) :=
  ⟨fun _ _ _ _ => overlapTest_eq_jsIntersect, by decide, by decide⟩

/-- Witness for C1: the equivalence instantiated on the draft `[2, 4)` and
the stored caption `[1, 3)`. -/
theorem claimC1_witness :
    overlapTest (parseFloat "2") (parseFloat "4") (parseFloat "1") (parseFloat "3") =
      jsIntersect (parseFloat "2") (parseFloat "4") (parseFloat "1") (parseFloat "3") :=
  claimC1.1 (parseFloat "2") (parseFloat "4") (parseFloat "1") (parseFloat "3")
    (by decide) (by decide)

/-- C2: after any successful operation sequence from the empty store —
including sequences that interleave `beginEdit` with deletes (stale edit
cursor, reaching sparse arrays) and sequences committing drafts whose
start/end strings `parseFloat` cannot fully parse (`NaN` endpoints) — every
pair of captions held at distinct positions fails the canonical half-open
intersection test. -/
theorem claimC2 {ops : List Op} {st : AppState} (h : runOps ops = some st) :
    ∀ i j ci cj, i ≠ j → st.captions.get? i = some (.cap ci) →
      st.captions.get? j = some (.cap cj) → capIntersect ci cj = false := by
  intro i j ci cj hij hi hj
  have hp := pairwise_get?_iff.mp (runOps_invariant h).1
  rcases Nat.lt_or_ge i j with hlt | hge
  · exact hp i j _ _ hlt hi hj ci cj rfl rfl
  · have hlt : j < i := by omega
    rw [capIntersect_comm]
    exact hp j i _ _ hlt hj hi cj ci rfl rfl

/-- Witness for C2: two captions committed in sequence do not intersect. -/
theorem claimC2_witness : capIntersect ⟨"Hi", "1", "3"⟩ ⟨"Bye", "5", "7"⟩ = false :=
  @claimC2 [.setDraft "Hi" "1" "3", .addOrUpdate, .setDraft "Bye" "5" "7", .addOrUpdate]
    ⟨[.cap ⟨"Hi", "1", "3"⟩, .cap ⟨"Bye", "5", "7"⟩], emptyDraft, none⟩
    (by decide) 0 1 ⟨"Hi", "1", "3"⟩ ⟨"Bye", "5", "7"⟩ (by decide) (by decide) (by decide)

/-- C3 is false on the code: `handleDeleteCaption` never touches the edit
cursor.  Deleting index 0 while editing index 0 leaves the cursor at
`Editing(0)` (claim says `Idle`), and deleting index 0 while editing index 1
leaves it at `Editing(1)` (claim says `Editing(0)`). -/
theorem claimC3_counterexample :
    (runOps [.setDraft "Hi" "1" "3", .addOrUpdate, .beginEdit 0, .delete 0] =
      some ⟨[], ⟨"Hi", "1", "3"⟩, some 0⟩) ∧
    (runOps [.setDraft "A" "1" "3", .addOrUpdate, .setDraft "B" "5" "7", .addOrUpdate,
        .beginEdit 1, .delete 0] =
      some ⟨[.cap ⟨"B", "5", "7"⟩], ⟨"B", "5", "7"⟩, some 1⟩) :=
  ⟨by decide, by decide⟩

/-- C3 amended: `handleDeleteCaption` removes the caption at the index
(shifting later slots down) but leaves the edit cursor and the draft exactly
as they were — the cursor is never cleared nor shifted, so it dangles. -/
theorem claimC3_amended (i : Nat) (st : AppState) :
    (handleDeleteCaption i st).editingIndex = st.editingIndex ∧
    (handleDeleteCaption i st).currentCaption = st.currentCaption :=
  ⟨rfl, rfl⟩

/-- C4 is false on the code: the `videoURL` reset effect empties the caption
sequence and clears the draft, but does not clear the edit cursor — after a
video change while editing, the snapshot is empty yet the cursor still holds
the stale index. -/
theorem claimC4_counterexample :
    runOps [.setDraft "Hi" "1" "3", .addOrUpdate, .beginEdit 0, .videoChange] =
      some ⟨[], emptyDraft, some 0⟩ := by decide

/-- C4 amended: on a video-source change the captions are reset to empty and
the draft is cleared, but the edit cursor retains its previous value. -/
theorem claimC4_amended (st : AppState) :
    (videoURLResetEffect st).captions = [] ∧
    (videoURLResetEffect st).currentCaption = emptyDraft ∧
    (videoURLResetEffect st).editingIndex = st.editingIndex :=
  ⟨rfl, rfl, rfl⟩

/-- C5 is false on the code: the missing-field check only tests emptiness.
The draft `{text:"x", start:"abc", end:"5"}` has `parseFloat("abc") = NaN`,
yet it passes all three checks (every `NaN` comparison is false) and the
caption is committed — not rejected with `MissingField`. -/
theorem claimC5_counterexample :
    parseFloat "abc" = none ∧
    addOrUpdateCaption ⟨[], ⟨"x", "abc", "5"⟩, none⟩ =
      some (.added, ⟨[.cap ⟨"x", "abc", "5"⟩], emptyDraft, none⟩) :=
  ⟨by decide, by decide⟩

/-- C5 amended: `addOrUpdateCaption` returns `MissingField` exactly when the
draft's text, start or end is the empty string; non-empty unparseable
strings pass the check. -/
theorem claimC5_amended {st : AppState} {r : AddResult} {st' : AppState}
    (h : addOrUpdateCaption st = some (r, st')) :
    r = .missingField ↔
      (st.currentCaption.text = "" ∨ st.currentCaption.start = "" ∨
        st.currentCaption.«end» = "") := by
  unfold addOrUpdateCaption at h
  split at h
  · rename_i hc
    simp only [Option.some.injEq, Prod.mk.injEq] at h
    obtain ⟨rfl, -⟩ := h
    exact iff_of_true rfl hc
  · rename_i hc
    split at h
    · simp only [Option.some.injEq, Prod.mk.injEq] at h
      obtain ⟨rfl, -⟩ := h
      exact iff_of_false (by simp) hc
    · split at h
      · exact absurd h (by simp)
      · simp only [Option.some.injEq, Prod.mk.injEq] at h
        obtain ⟨rfl, -⟩ := h
        exact iff_of_false (by simp) hc
      · split at h
        · simp only [Option.some.injEq, Prod.mk.injEq] at h
          obtain ⟨rfl, -⟩ := h
          exact iff_of_false (by simp) hc
        · simp only [Option.some.injEq, Prod.mk.injEq] at h
          obtain ⟨rfl, -⟩ := h
          exact iff_of_false (by simp) hc

/-- Witness for the amended C5, instantiated on the committed draft with the
unparseable start `"abc"`. -/
theorem claimC5_amended_witness :
    AddResult.added = AddResult.missingField ↔
      ("x" = "" ∨ "abc" = "" ∨ "5" = "") :=
  @claimC5_amended ⟨[], ⟨"x", "abc", "5"⟩, none⟩ .added
    ⟨[.cap ⟨"x", "abc", "5"⟩], emptyDraft, none⟩ (by decide)

/-- C6 is false on the code: there is no lower bound on `start`.  The draft
`{text:"x", start:"-5", end:"-1"}` is committed, storing a caption whose
parsed start is `-5 < 0`. -/
theorem claimC6_counterexample :
    runOps [.setDraft "x" "-5" "-1", .addOrUpdate] =
      some ⟨[.cap ⟨"x", "-5", "-1"⟩], emptyDraft, none⟩ ∧
    parseFloat "-5" = some ⟨-5, 0⟩ ∧ JsNum.toRat ⟨-5, 0⟩ < 0 :=
  ⟨by decide, by decide, by norm_num [JsNum.toRat]⟩

/-- C6 amended: every caption ever stored has non-empty text/start/end
strings and its parsed endpoints fail the `start >= end` test — so whenever
both endpoints parse, `start < end` holds; but `start` may be negative and
either endpoint may be unparseable (`NaN`). -/
theorem claimC6_amended {ops : List Op} {st : AppState} (h : runOps ops = some st) :
    ∀ c, Slot.cap c ∈ st.captions → capValidated c := by
  intro c hc
  exact (runOps_invariant h).2 _ hc

/-- Witness for the amended C6, on a store holding one committed caption. -/
theorem claimC6_amended_witness : capValidated ⟨"Hi", "1", "3"⟩ :=
  @claimC6_amended [.setDraft "Hi" "1" "3", .addOrUpdate]
    ⟨[.cap ⟨"Hi", "1", "3"⟩], emptyDraft, none⟩ (by decide)
    ⟨"Hi", "1", "3"⟩ (by decide)

/-- C7 is false on the code: `getUTCHours` is the hour of day, so whole days
are silently lost.  The inputs `0` and `86400` seconds — one day apart —
both format to `"00:00:00.000"`: the hours field does not carry the full
hour count and distinct inputs collapse. -/
theorem claimC7_counterexample :
    formatTimeNum ⟨86400, 0⟩ = "00:00:00.000" ∧
    formatTimeNum ⟨0, 0⟩ = "00:00:00.000" ∧
    JsNum.toRat ⟨86400, 0⟩ = 86400 ∧ JsNum.toRat ⟨0, 0⟩ = 0 :=
  ⟨by decide, by decide, by norm_num [JsNum.toRat], by norm_num [JsNum.toRat]⟩

/-- C7 amended: for every non-negative input, adding exactly one day
(86400 s) yields the identical formatted string — the hours field is reduced
modulo 24 and the day count is silently discarded. -/
theorem claimC7_amended (x : JsNum) (hx : 0 ≤ x.n) :
    formatTimeNum (plusOneDay x) = formatTimeNum x ∧
    (plusOneDay x).toRat = x.toRat + 86400 :=
  ⟨formatTimeNum_day_shift x hx, plusOneDay_toRat x⟩

/-- Witness for the amended C7 at input `0`. -/
theorem claimC7_amended_witness :
    formatTimeNum (plusOneDay ⟨0, 0⟩) = formatTimeNum ⟨0, 0⟩ ∧
    (plusOneDay ⟨0, 0⟩).toRat = JsNum.toRat ⟨0, 0⟩ + 86400 :=
  claimC7_amended ⟨0, 0⟩ (by decide)

/-- C8: `formatTime` maps `0` to `"00:00:00.000"` and `3661.5` to
`"01:01:01.500"`, each field zero-padded (the inputs are the numbers
`0 / 10^0` and `36615 / 10^1 = 3661.5`). -/
theorem claimC8 :
    formatTimeNum ⟨0, 0⟩ = "00:00:00.000" ∧
    formatTimeNum ⟨36615, 1⟩ = "01:01:01.500" ∧
    JsNum.toRat ⟨0, 0⟩ = 0 ∧ JsNum.toRat ⟨36615, 1⟩ = 3661.5 :=
  ⟨by decide, by decide, by norm_num [JsNum.toRat], by norm_num [JsNum.toRat]⟩

/-- C9: the encoded track text is exactly the `WEBVTT` header plus a blank
line, followed by one cue block per caption in snapshot order (not
re-sorted), each block being the 1-based index line, the
`formatTime(start) --> formatTime(end)` line and the caption text, each block
followed by one blank line; the empty snapshot encodes to `"WEBVTT\n\n"`
exactly. -/
theorem claimC9 :
    (∀ caps : List Caption, generateVTT caps = encodeTrack caps) ∧
    generateVTT [] = "WEBVTT\n\n" := by
  constructor
  · intro caps
    rw [generateVTT, encodeTrack, vttAppend_eq]
    rfl
  · rfl

/-- C10: whenever `addOrUpdateCaption` fails validation (`MissingField`,
`InvalidRange` or `Overlap`), the returned state is exactly the prior state —
captions, draft and edit cursor untouched. -/
theorem claimC10 {st st' : AppState} {r : AddResult}
    (h : addOrUpdateCaption st = some (r, st'))
    (hr : r = .missingField ∨ r = .invalidRange ∨ r = .overlap) : st' = st := by
  unfold addOrUpdateCaption at h
  split at h
  · simp only [Option.some.injEq, Prod.mk.injEq] at h
    exact h.2.symm
  · split at h
    · simp only [Option.some.injEq, Prod.mk.injEq] at h
      exact h.2.symm
    · split at h
      · exact absurd h (by simp)
      · simp only [Option.some.injEq, Prod.mk.injEq] at h
        exact h.2.symm
      · split at h
        · simp only [Option.some.injEq, Prod.mk.injEq] at h
          obtain ⟨rfl, -⟩ := h
          rcases hr with h' | h' | h' <;> exact absurd h' (by simp)
        · simp only [Option.some.injEq, Prod.mk.injEq] at h
          obtain ⟨rfl, -⟩ := h
          rcases hr with h' | h' | h' <;> exact absurd h' (by simp)

/-- Witness for C10: the rejected overlapping draft leaves the store
unchanged. -/
theorem claimC10_witness :
    (⟨[.cap ⟨"Hi", "1", "3"⟩], ⟨"Bye", "2", "4"⟩, none⟩ : AppState) =
      ⟨[.cap ⟨"Hi", "1", "3"⟩], ⟨"Bye", "2", "4"⟩, none⟩ :=
  claimC10 (by decide) (Or.inr (Or.inr rfl))
